import Mathlib

/-!
Verification of the gosql data-access layer: a shallow embedding of its
result-materialization engine, migration engine, capability-gated
connection (SQLite authorizer), insert builder and HTTP handler gate,
with theorems settling the specification claims.

The embedding follows `gosql.go` (its primary snapshot) and the `convert`
coercion routine of the companion snapshot that performs the dynamic-slot
JSON unwrap. SQL values flowing between the engine and the materializer
are modelled as dynamic JSON-like values (`JValue`), matching the
driver's dynamically typed scalars and the library's JSON-roundtrip
coercion strategy. JSON numbers are modelled as integers (the fraction /
exponent forms of the JSON number grammar are not modelled; no claim
depends on them).
-/

set_option autoImplicit false

namespace Gosql

/-- A dynamic JSON-like value: the model of `interface\x7b\x7d` values produced by
the SQL driver and by `encoding/json` decoding. -/
inductive JValue where
  | null : JValue
  | bool (b : Bool) : JValue
  | num (n : Int) : JValue
  | str (s : String) : JValue
  | arr (xs : List JValue) : JValue
  | obj (kvs : List (String × JValue)) : JValue

/-- Whitespace as accepted by the JSON grammar. -/
def isJSONWS (c : Char) : Bool :=
  c = ' ' || c = '\t' || c = '\n' || c = '\r'

/-- Drop leading JSON whitespace. -/
def skipWS : List Char → List Char
  | [] => []
  | c :: cs => if isJSONWS c then skipWS cs else c :: cs

/-- Decode one escape character of a JSON string (after the backslash);
`\u` escapes are handled separately. -/
def unescapeChar (c : Char) : Option Char :=
  if c = '"' then some '"'
  else if c = '\\' then some '\\'
  else if c = '/' then some '/'
  else if c = 'n' then some '\n'
  else if c = 't' then some '\t'
  else if c = 'r' then some '\r'
  else if c = 'b' then some (Char.ofNat 8)
  else if c = 'f' then some (Char.ofNat 12)
  else none

/-- Value of a hexadecimal digit. -/
def hexVal (c : Char) : Option Nat :=
  if '0' ≤ c ∧ c ≤ '9' then some (c.toNat - '0'.toNat)
  else if 'a' ≤ c ∧ c ≤ 'f' then some (c.toNat - 'a'.toNat + 10)
  else if 'A' ≤ c ∧ c ≤ 'F' then some (c.toNat - 'A'.toNat + 10)
  else none

/-- Parse the remainder of a JSON string literal (the opening quote already
consumed), returning the decoded characters and the rest of the input.
Raw control characters are rejected, as `encoding/json` does. -/
def parseStringRest : Nat → List Char → Option (List Char × List Char)
  | 0, _ => none
  | _ + 1, [] => none
  | fuel + 1, c :: cs =>
    if c = '"' then some ([], cs)
    else if c = '\\' then
      match cs with
      | [] => none
      | e :: cs' =>
        if e = 'u' then
          match cs' with
          | h1 :: h2 :: h3 :: h4 :: cs'' =>
            match hexVal h1, hexVal h2, hexVal h3, hexVal h4 with
            | some a, some b, some c1, some d =>
              match parseStringRest fuel cs'' with
              | some (out, rest) =>
                some (Char.ofNat (((a * 16 + b) * 16 + c1) * 16 + d) :: out, rest)
              | none => none
            | _, _, _, _ => none
          | _ => none
        else
          match unescapeChar e with
          | some u =>
            match parseStringRest fuel cs' with
            | some (out, rest) => some (u :: out, rest)
            | none => none
          | none => none
    else if c.toNat < 32 then none
    else
      match parseStringRest fuel cs with
      | some (out, rest) => some (c :: out, rest)
      | none => none

/-- Split leading decimal digits from the input. -/
def takeDigits : List Char → List Char × List Char
  | [] => ([], [])
  | c :: cs =>
    if '0' ≤ c ∧ c ≤ '9' then
      let (ds, rest) := takeDigits cs
      (c :: ds, rest)
    else ([], c :: cs)

/-- Numeric value of a digit list. -/
def digitsToNat (ds : List Char) : Nat :=
  ds.foldl (fun n c => n * 10 + (c.toNat - '0'.toNat)) 0

/-- Parse a JSON integer (sign and digits; leading zeros rejected per the
JSON grammar). Fraction and exponent parts are not modelled. -/
def parseNum (cs : List Char) : Option (JValue × List Char) :=
  let (neg, cs1) :=
    match cs with
    | '-' :: rest => (true, rest)
    | _ => (false, cs)
  let (ds, rest) := takeDigits cs1
  match ds with
  | [] => none
  | d :: ds' =>
    if d = '0' ∧ ds' ≠ [] then none
    else
      let n : Int := Int.ofNat (digitsToNat (d :: ds'))
      some (JValue.num (if neg then -n else n), rest)

/-- Check that the input starts with the given literal characters. -/
def expectLit : List Char → List Char → Option (List Char)
  | [], cs => some cs
  | l :: ls, c :: cs => if c = l then expectLit ls cs else none
  | _ :: _, [] => none

mutual

/-- Recursive-descent JSON value parser (model of `encoding/json`
decoding into a dynamic value), fuelled for termination. -/
def parseValue : Nat → List Char → Option (JValue × List Char)
  | 0, _ => none
  | fuel + 1, cs =>
    match skipWS cs with
    | [] => none
    | c :: cs' =>
      if c = '\x7b' then
        match parseObjBody fuel cs' with
        | some (kvs, rest) => some (JValue.obj kvs, rest)
        | none => none
      else if c = '[' then
        match parseArrBody fuel cs' with
        | some (xs, rest) => some (JValue.arr xs, rest)
        | none => none
      else if c = '"' then
        match parseStringRest (cs'.length + 1) cs' with
        | some (out, rest) => some (JValue.str (String.mk out), rest)
        | none => none
      else if c = 't' then
        match expectLit ['r', 'u', 'e'] cs' with
        | some rest => some (JValue.bool true, rest)
        | none => none
      else if c = 'f' then
        match expectLit ['a', 'l', 's', 'e'] cs' with
        | some rest => some (JValue.bool false, rest)
        | none => none
      else if c = 'n' then
        match expectLit ['u', 'l', 'l'] cs' with
        | some rest => some (JValue.null, rest)
        | none => none
      else parseNum (c :: cs')

/-- Parse the members of a JSON object after the opening brace. -/
def parseObjBody : Nat → List Char → Option (List (String × JValue) × List Char)
  | 0, _ => none
  | fuel + 1, cs =>
    match skipWS cs with
    | '\x7d' :: rest => some ([], rest)
    | '"' :: rest =>
      match parseStringRest (rest.length + 1) rest with
      | none => none
      | some (key, rest1) =>
        match skipWS rest1 with
        | ':' :: rest2 =>
          match parseValue fuel rest2 with
          | none => none
          | some (v, rest3) =>
            match skipWS rest3 with
            | ',' :: rest4 =>
              match skipWS rest4 with
              | '\x7d' :: _ => none
              | _ =>
                match parseObjBody fuel rest4 with
                | some (kvs, rest5) => some ((String.mk key, v) :: kvs, rest5)
                | none => none
            | '\x7d' :: rest4 => some ([(String.mk key, v)], rest4)
            | _ => none
        | _ => none
    | _ => none

/-- Parse the elements of a JSON array after the opening bracket. -/
def parseArrBody : Nat → List Char → Option (List JValue × List Char)
  | 0, _ => none
  | fuel + 1, cs =>
    match skipWS cs with
    | ']' :: rest => some ([], rest)
    | cs' =>
      match parseValue fuel cs' with
      | none => none
      | some (v, rest) =>
        match skipWS rest with
        | ',' :: rest1 =>
          match skipWS rest1 with
          | ']' :: _ => none
          | _ =>
            match parseArrBody fuel rest1 with
            | some (xs, rest2) => some (v :: xs, rest2)
            | none => none
        | ']' :: rest1 => some ([v], rest1)
        | _ => none

end

/-- Parse a complete JSON document: one value with only trailing
whitespace allowed, as `json.Unmarshal` requires. -/
def parse (s : String) : Option JValue :=
  match parseValue (2 * s.data.length + 2) s.data with
  | some (v, rest) => if skipWS rest = [] then some v else none
  | none => none

/-- Source `isJSONObjectString` (gosql.go): `len(s) >= 2 && s[0] == char 123
&& s[len(s)-1] == char 125`. -/
def isJSONObjectString (s : String) : Bool :=
  decide (2 ≤ s.data.length) && s.data.head? = some '\x7b' && s.data.getLast? = some '\x7d'

/-- Source `isJSONArrayString` (gosql.go): `len(s) >= 2 && s[0] == char 91
&& s[len(s)-1] == char 93`. -/
def isJSONArrayString (s : String) : Bool :=
  decide (2 ≤ s.data.length) && s.data.head? = some '[' && s.data.getLast? = some ']'

/-- Source `convert` for a dynamic destination slot (the `dst.(*interface\x7b\x7d)`
path of `convert` in the companion snapshot): the raw scalar is
JSON-marshalled; if the destination is dynamic and the marshalled bytes are
a quoted string whose unquoted content starts and ends with braces or
brackets, the string is unquoted first; then the bytes are unmarshalled
into the destination. For a string `s`, `len(bs) >= 4 && bs[0] == quote &&
bs[len-1] == quote && (bs[1]/bs[len-2] are braces or brackets)` is
equivalent to `isJSONObjectString s || isJSONArrayString s`, since
marshalling never escapes braces or brackets and adds exactly the outer
quotes; `strconv.Unquote` then recovers `s` itself. For non-string scalars
the marshal/unmarshal roundtrip returns the value unchanged. -/
def convert (src : JValue) : Except String JValue :=
  match src with
  | JValue.str s =>
    if isJSONObjectString s || isJSONArrayString s then
      match parse s with
      | some v => Except.ok v
      | none => Except.error ("json unmarshal: invalid character in " ++ s)
    else Except.ok (JValue.str s)
  | v => Except.ok v

/-- Lexicographic comparison of character lists by code point; on UTF-8
strings this coincides with Go's bytewise string order, since UTF-8
encoding preserves code-point order. -/
def leChars : List Char → List Char → Bool
  | [], _ => true
  | _ :: _, [] => false
  | a :: as, b :: bs =>
    if a.toNat < b.toNat then true
    else if b.toNat < a.toNat then false
    else leChars as bs

/-- Go's string order (`s1 <= s2` bytewise), as a proposition. -/
def strLe (a b : String) : Prop := leChars a.data b.data = true

instance : DecidableRel strLe := fun a b => instDecidableEqBool (leChars a.data b.data) true

/-- Sort an association list by key, as `json.Marshal` does for Go maps. -/
def sortByKey (kvs : List (String × JValue)) : List (String × JValue) :=
  List.insertionSort (fun a b => strLe a.1 b.1) kvs

/-- JSON string escaping (model of `encoding/json` string encoding; the
HTML escapes of angle brackets and ampersand are not modelled). -/
def escapeChar (c : Char) : String :=
  if c = '"' then "\\\""
  else if c = '\\' then "\\\\"
  else if c = '\n' then "\\n"
  else if c = '\t' then "\\t"
  else if c = '\r' then "\\r"
  else String.mk [c]

mutual

/-- JSON serialization of a dynamic value (model of `json.Marshal`). -/
def encodeJ : JValue → String
  | JValue.null => "null"
  | JValue.bool true => "true"
  | JValue.bool false => "false"
  | JValue.num n => toString n
  | JValue.str s => "\"" ++ String.join (s.data.map escapeChar) ++ "\""
  | JValue.arr xs => "[" ++ encodeJList xs ++ "]"
  | JValue.obj kvs => "\x7b" ++ encodeJKVs kvs ++ "\x7d"

/-- Comma-separated encoding of array elements. -/
def encodeJList : List JValue → String
  | [] => ""
  | [x] => encodeJ x
  | x :: y :: xs => encodeJ x ++ "," ++ encodeJList (y :: xs)

/-- Comma-separated encoding of object members. -/
def encodeJKVs : List (String × JValue) → String
  | [] => ""
  | [(k, v)] => "\"" ++ String.join (k.data.map escapeChar) ++ "\":" ++ encodeJ v
  | (k, v) :: m :: kvs =>
    "\"" ++ String.join (k.data.map escapeChar) ++ "\":" ++ encodeJ v ++ "," ++ encodeJKVs (m :: kvs)

end

/-- A Go runtime value as seen by `Insert` through `reflect`: scalar kinds,
plus the composite kinds (map, struct, slice) that `Insert` JSON-encodes. -/
inductive GoVal where
  | vNull : GoVal
  | vBool (b : Bool) : GoVal
  | vInt (n : Int) : GoVal
  | vStr (s : String) : GoVal
  | vSlice (xs : List GoVal) : GoVal
  | vMap (kvs : List (String × GoVal)) : GoVal
  | vStruct (fields : List (String × GoVal)) : GoVal

mutual

/-- The dynamic JSON value a Go value marshals as: struct fields keep
declaration order, map keys are sorted (as `json.Marshal` sorts them). -/
def toJValue : GoVal → JValue
  | GoVal.vNull => JValue.null
  | GoVal.vBool b => JValue.bool b
  | GoVal.vInt n => JValue.num n
  | GoVal.vStr s => JValue.str s
  | GoVal.vSlice xs => JValue.arr (toJValueList xs)
  | GoVal.vMap kvs => JValue.obj (sortByKey (toJValueKVs kvs))
  | GoVal.vStruct fields => JValue.obj (toJValueKVs fields)

/-- Marshal each element of a Go slice. -/
def toJValueList : List GoVal → List JValue
  | [] => []
  | x :: xs => toJValue x :: toJValueList xs

/-- Marshal each value of a Go map or struct. -/
def toJValueKVs : List (String × GoVal) → List (String × JValue)
  | [] => []
  | (k, v) :: kvs => (k, toJValue v) :: toJValueKVs kvs

end

/-- The argument `Insert` binds for one map value: composite kinds (map,
struct, slice) are JSON-encoded to a string, scalars pass through. -/
def insertArg (v : GoVal) : GoVal :=
  match v with
  | GoVal.vMap _ => GoVal.vStr (encodeJ (toJValue v))
  | GoVal.vStruct _ => GoVal.vStr (encodeJ (toJValue v))
  | GoVal.vSlice _ => GoVal.vStr (encodeJ (toJValue v))
  | _ => v

/-- A statement handed to `Connection.Exec`: the SQL text and its
positional arguments. -/
structure ExecCall where
  sql : String
  args : List GoVal

/-- Source `Insert` (gosql.go, primary snapshot): switches on the
`reflect.Kind` of the input. Only the `Map` case is handled: it appends,
per key/value pair in enumeration order, the key to the column list, a
positional placeholder, and the (possibly JSON-encoded) value to the
argument list; every other kind (including `Struct`) falls to the
`default` branch and returns the `unhandled type` error. The association
list order models Go's map enumeration order. -/
def Insert (table : String) (v : GoVal) (ignore : Bool) : Except String ExecCall :=
  match v with
  | GoVal.vMap kvs =>
    let acc := kvs.foldl
      (fun (acc : List String × List String × List GoVal) kv =>
        (acc.1 ++ [kv.1], acc.2.1 ++ ["?"], acc.2.2 ++ [insertArg kv.2]))
      ([], [], [])
    let maybeIgnore := if ignore then "OR IGNORE" else ""
    Except.ok
      ⟨"INSERT " ++ maybeIgnore ++ " INTO " ++ table ++ " (" ++
        String.intercalate ", " acc.1 ++ ") VALUES (" ++
        String.intercalate ", " acc.2.1 ++ ")",
        acc.2.2⟩
  | _ => Except.error "unhandled type"

/-! SQLite authorizer action codes and results, as defined by the
`go-sqlite3` binding (mirroring `sqlite3.h`). -/

def SQLITE_OK : Nat := 0
def SQLITE_DENY : Nat := 1
def SQLITE_CREATE_TABLE : Nat := 2
def SQLITE_DELETE : Nat := 9
def SQLITE_DROP_TABLE : Nat := 11
def SQLITE_INSERT : Nat := 18
def SQLITE_PRAGMA : Nat := 19
def SQLITE_READ : Nat := 20
def SQLITE_SELECT : Nat := 21
def SQLITE_UPDATE : Nat := 23
def SQLITE_ATTACH : Nat := 24
def SQLITE_ALTER_TABLE : Nat := 26
def SQLITE_FUNCTION : Nat := 31

/-- Source read-only authorizer (gosql.go `connectHook`): allow `SELECT`,
`READ` and `FUNCTION`; for `PRAGMA`, allow only `table_info`; deny every
other action. -/
def authorizer (op : Nat) (arg1 arg2 arg3 : String) : Nat :=
  if op = SQLITE_SELECT ∨ op = SQLITE_READ ∨ op = SQLITE_FUNCTION then SQLITE_OK
  else if op = SQLITE_PRAGMA ∧ arg1 = "table_info" then SQLITE_OK
  else SQLITE_DENY

/-! Migration engine. The governed database is modelled by the ledger
relation `_migrations` (its `name` column, in row insertion order) plus a
ghost trace of the migration side effects performed on the database:
executing a migration body and inserting its ledger row. Failure of a
body execution or of a ledger insert is modelled by two predicates on the
migration name (a body is determined by its name, since migrations map
names to SQL text). -/

/-- One observable migration side effect on the governed database. -/
inductive MEvent where
  | exec (name : String) : MEvent
  | record (name : String) : MEvent
  deriving DecidableEq, Repr

/-- The persistent state of the governed database. -/
structure DBState where
  ledger : List String
  trace : List MEvent
  deriving DecidableEq, Repr

/-- Error text for a failing migration body execution. -/
def execFailMsg (name : String) : String := "exec of migration " ++ name ++ " failed"

/-- Error text for a failing ledger insert. -/
def insertFailMsg (name : String) : String := "ledger insert of migration " ++ name ++ " failed"

/-- The apply loop of `migrate` (gosql.go): iterate over the sorted keys;
skip a key present in the `applied` set (the ledger snapshot read before
the loop); otherwise execute the body, then insert the ledger row; return
the first error, leaving earlier effects committed (each statement runs
in auto-commit, there is no surrounding transaction). -/
def applyLoop (bodyFails insertFails : String → Bool) (applied : List String) :
    List String → DBState → DBState × Option String
  | [], st => (st, none)
  | k :: ks, st =>
    if k ∈ applied then applyLoop bodyFails insertFails applied ks st
    else if bodyFails k then (st, some (execFailMsg k))
    else
      let st1 : DBState := ⟨st.ledger, st.trace ++ [MEvent.exec k]⟩
      if insertFails k then (st1, some (insertFailMsg k))
      else applyLoop bodyFails insertFails applied ks ⟨st1.ledger ++ [k], st1.trace ++ [MEvent.record k]⟩

/-- The migration keys in the order the loop visits them: all map keys,
sorted lexicographically (`sort.Strings`). -/
def sortedKeys (migs : List (String × String)) : List String :=
  List.insertionSort strLe (migs.map Prod.fst)

/-- Source `migrate` (gosql.go): ensure the ledger relation exists
(idempotent DDL, no observable effect in this model), read the applied
names from the ledger, collect and sort the migration keys, and run the
apply loop against the applied-set snapshot. -/
def migrate (bodyFails insertFails : String → Bool) (migs : List (String × String))
    (st : DBState) : DBState × Option String :=
  applyLoop bodyFails insertFails st.ledger (sortedKeys migs) st

/-- Source `Open` (gosql.go): calls `migrate` once discarding its error,
then fails if the handle is already open, then calls `migrate` again and
fails on its error; driver registration and `sql.Open` are modelled as
succeeding. `alreadyOpen` models `db.DB != nil` for this handle. -/
def Open (bodyFails insertFails : String → Bool) (migs : List (String × String))
    (alreadyOpen : Bool) (st : DBState) : DBState × Option String :=
  let r1 := migrate bodyFails insertFails migs st
  if alreadyOpen then (r1.1, some "already open")
  else
    let r2 := migrate bodyFails insertFails migs r1.1
    (r2.1, r2.2)

/-- Predicate-free failure model: every migration body and ledger insert
succeeds. -/
def noFail : String → Bool := fun _ => false

/-! Result materializer. The caller's target is a Go type inspected via
`reflect`; the engine returns a column set and rows of dynamic scalars. -/

/-- A Go type as the materializer sees it through `reflect`. -/
inductive GoType where
  | tInt : GoType
  | tString : GoType
  | tBool : GoType
  | tInterface : GoType
  | tMap (v : GoType) : GoType
  | tStruct (fields : List (String × GoType)) : GoType
  | tSlice (e : GoType) : GoType
  | tPtr (e : GoType) : GoType

mutual

/-- Model of `json.Unmarshal` of a marshalled dynamic scalar into a typed
destination, combined with the marshal step of `convert`: a dynamic
destination takes the `convert` path (with the nested-JSON unwrap); JSON
null leaves any destination at its zero value (modelled as `null`);
matching scalar kinds pass through; arrays decode elementwise into
slices; objects decode into maps valuewise; anything else is a decoding
error. Object-into-struct and pointer destinations are not modelled (no
claim depends on them). -/
def coerce : JValue → GoType → Except String JValue
  | v, GoType.tInterface => convert v
  | JValue.null, _ => Except.ok JValue.null
  | JValue.num n, GoType.tInt => Except.ok (JValue.num n)
  | JValue.str s, GoType.tString => Except.ok (JValue.str s)
  | JValue.bool b, GoType.tBool => Except.ok (JValue.bool b)
  | JValue.arr xs, GoType.tSlice e =>
    match coerceList xs e with
    | Except.ok ws => Except.ok (JValue.arr ws)
    | Except.error msg => Except.error msg
  | JValue.obj kvs, GoType.tMap ve =>
    match coerceKVs kvs ve with
    | Except.ok ws => Except.ok (JValue.obj ws)
    | Except.error msg => Except.error msg
  | _, _ => Except.error "json: cannot unmarshal value into destination type"

/-- Elementwise decoding of a JSON array into a Go slice. -/
def coerceList : List JValue → GoType → Except String (List JValue)
  | [], _ => Except.ok []
  | x :: xs, e =>
    match coerce x e with
    | Except.error msg => Except.error msg
    | Except.ok w =>
      match coerceList xs e with
      | Except.ok ws => Except.ok (w :: ws)
      | Except.error msg => Except.error msg

/-- Valuewise decoding of a JSON object into a Go map. -/
def coerceKVs : List (String × JValue) → GoType → Except String (List (String × JValue))
  | [], _ => Except.ok []
  | (k, x) :: kvs, e =>
    match coerce x e with
    | Except.error msg => Except.error msg
    | Except.ok w =>
      match coerceKVs kvs e with
      | Except.ok ws => Except.ok ((k, w) :: ws)
      | Except.error msg => Except.error msg

end

/-- Convert each scanned slot in column order, stopping at the first
error (the conversion loop of source `scan`). -/
def convertAll : List (GoType × JValue) → Except String (List JValue)
  | [] => Except.ok []
  | (t, v) :: rest =>
    match coerce v t with
    | Except.error msg => Except.error msg
    | Except.ok w =>
      match convertAll rest with
      | Except.ok ws => Except.ok (w :: ws)
      | Except.error msg => Except.error msg

/-- Source `scan`: `rows.Scan` into untyped intermediate slots (which
fails when the destination count differs from the column count, as
`database/sql` enforces), then convert each slot into its typed
destination. A destination of type `tInterface` models both a dynamic
map value slot and the discard slot bound for an unmatched column. -/
def scan (slots : List GoType) (row : List JValue) : Except String (List JValue) :=
  if slots.length ≠ row.length then
    Except.error ("sql: expected " ++ toString row.length ++
      " destination arguments in Scan, not " ++ toString slots.length)
  else convertAll (slots.zip row)

/-- Go map assignment: replace the value of an existing key, else append
the new key. -/
def mapPut (m : List (String × JValue)) (k : String) (v : JValue) : List (String × JValue) :=
  match m with
  | [] => [(k, v)]
  | (k0, v0) :: rest => if k0 = k then (k, v) :: rest else (k0, v0) :: mapPut rest k v

/-- Build one mapping-shaped row: `x[column] = values[i]` for each column
in engine order (duplicate column names overwrite earlier entries). -/
def buildRowMap (cols : List String) (vals : List JValue) : List (String × JValue) :=
  (cols.zip vals).foldl (fun m kv => mapPut m kv.1 kv.2) []

/-- One row of `unmarshalMap`: every slot has the map's value type; the
converted slots are keyed by column name. -/
def rowMap (vt : GoType) (cols : List String) (row : List JValue) : Except String (List (String × JValue)) :=
  match scan (cols.map fun _ => vt) row with
  | Except.ok vals => Except.ok (buildRowMap cols vals)
  | Except.error msg => Except.error msg

/-- The field type bound for a column in struct shape: the same-named
field's address if the struct has one (`FieldByName`, exact
case-sensitive match), else a discard slot of dynamic type. -/
def slotFor (fields : List (String × GoType)) (c : String) : GoType :=
  match fields.find? (fun f => f.1 = c) with
  | some f => f.2
  | none => GoType.tInterface

/-- The value a struct field ends up with: the last column of the same
name wins (each matching column scans into the same field address);
a field matched by no column keeps its zero value (modelled `null`). -/
def fieldValue (f : String) (colVals : List (String × JValue)) : JValue :=
  (colVals.filter (fun cv => cv.1 = f)).foldl (fun _ cv => cv.2) JValue.null

/-- One row of `unmarshalStruct`: bind each column to the same-named
field or a discard slot, scan, and keep the matched field values. -/
def rowStruct (fields : List (String × GoType)) (cols : List String) (row : List JValue) :
    Except String (List (String × JValue)) :=
  match scan (cols.map (slotFor fields)) row with
  | Except.ok vals => Except.ok (fields.map fun f => (f.1, fieldValue f.1 (cols.zip vals)))
  | Except.error msg => Except.error msg

/-- One row of the scalar branch of `unmarshal`: a single typed slot is
scanned (so any other column count is a scan arity error). -/
def rowScalar (t : GoType) (row : List JValue) : Except String JValue :=
  match scan [t] row with
  | Except.ok vals => Except.ok (vals.headD JValue.null)
  | Except.error msg => Except.error msg

/-- The row loop shared by the materializer branches: materialize each
row in order and append it to the output; on the first failing row,
return the rows appended so far together with the error. -/
def unmarshalLoop {α : Type} (f : List JValue → Except String α) :
    List (List JValue) → List α × Option String
  | [] => ([], none)
  | r :: rs =>
    match f r with
    | Except.error msg => ([], some msg)
    | Except.ok x =>
      let rest := unmarshalLoop f rs
      (x :: rest.1, rest.2)

/-- A materialized output slice, tagged by target shape. -/
inductive MatOut where
  | scalars (xs : List JValue) : MatOut
  | recs (xs : List (List (String × JValue))) : MatOut
  | maps (xs : List (List (String × JValue))) : MatOut

/-- The struct field set of a Go type (`FieldByName` source). -/
def fieldsOf : GoType → List (String × GoType)
  | GoType.tStruct fields => fields
  | _ => []

/-- Source `unmarshal`: dispatch on the kind of the slice element type.
`Ptr` unwraps the pointee and falls through to the struct branch;
`Interface` retargets to `map[string]interface` and falls through to the
map branch; every other kind takes the scalar branch. (Whether elements
are materialized behind pointers changes only Go-side boxing, not the
values, and is not modelled.) -/
def unmarshal (t : GoType) (cols : List String) (rows : List (List JValue)) :
    MatOut × Option String :=
  match t with
  | GoType.tPtr u =>
    let r := unmarshalLoop (rowStruct (fieldsOf u) cols) rows
    (MatOut.recs r.1, r.2)
  | GoType.tStruct fields =>
    let r := unmarshalLoop (rowStruct fields cols) rows
    (MatOut.recs r.1, r.2)
  | GoType.tInterface =>
    let r := unmarshalLoop (rowMap GoType.tInterface cols) rows
    (MatOut.maps r.1, r.2)
  | GoType.tMap v =>
    let r := unmarshalLoop (rowMap v cols) rows
    (MatOut.maps r.1, r.2)
  | t =>
    let r := unmarshalLoop (rowScalar t) rows
    (MatOut.scalars r.1, r.2)

/-- A short rendering of the offending target for the shape error text
(the source prints it with the `%t`/`%v` verbs of `fmt.Errorf`). -/
def describeTarget : Option GoType → String
  | none => "nil"
  | some GoType.tInt => "int"
  | some GoType.tString => "string"
  | some GoType.tBool => "bool"
  | some GoType.tInterface => "interface"
  | some (GoType.tMap _) => "map"
  | some (GoType.tStruct _) => "struct"
  | some (GoType.tSlice _) => "slice"
  | some (GoType.tPtr _) => "ptr"

/-- The shape guard of source `query`: the target must be a non-nil
pointer whose pointee is a slice (`xs.Kind() == Ptr` and
`xs.Type().Elem().Kind() == Slice`; a nil target has `reflect.Invalid`
kind). -/
def validTarget : Option GoType → Bool
  | some (GoType.tPtr (GoType.tSlice _)) => true
  | _ => false

/-- The outcome of one `query` call: whether the engine was queried, the
content of the caller's output slice at return (`none` when it was never
touched), and the returned error. -/
structure QueryOutcome where
  queried : Bool
  out : Option MatOut
  err : Option String

/-- Source `query`: reject any target that is not a pointer to a slice
before issuing the query; otherwise run the statement (`engine` models
the `c.Query` result for this call: an engine error, or a column set
with rows) and materialize into the target slice. -/
def queryImpl (engine : Except String (List String × List (List JValue)))
    (target : Option GoType) : QueryOutcome :=
  match target with
  | some (GoType.tPtr (GoType.tSlice et)) =>
    match engine with
    | Except.error msg => ⟨true, none, some msg⟩
    | Except.ok (cols, rows) =>
      let r := unmarshal et cols rows
      ⟨true, some r.1, r.2⟩
  | t => ⟨false, none, some ("cannot unmarshal query results into " ++ describeTarget t)⟩

/-- Source `Query`: run `query` and wrap any error with the original SQL
text. -/
def Query (queryString : String) (engine : Except String (List String × List (List JValue)))
    (target : Option GoType) : QueryOutcome :=
  let o := queryImpl engine target
  ⟨o.queried, o.out, o.err.map (fun msg => queryString ++ ": " ++ msg)⟩

/-! HTTP handler over the read-only connection. -/

/-- The connection fields `Handler` consults. -/
structure DBConn where
  readOnly : Bool

/-- An HTTP response: status code and JSON body. -/
structure HResp where
  status : Nat
  body : JValue

/-- `r.URL.Query().Get`: the first value of the parameter, or the empty
string when absent. -/
def urlGet (reqParams : List (String × String)) (k : String) : String :=
  match reqParams.find? (fun p => p.1 = k) with
  | some p => p.2
  | none => ""

/-- The request body of the handler returned by `Handler`: default the
parameter names, take the first non-empty query parameter, answer 400 on
an empty query or a failed `Query`, else 200 with the materialized rows.
The JSON re-encoding of the response body is not modelled. -/
def handlerBody (engine : String → Except String (List String × List (List JValue)))
    (params : List String) (reqParams : List (String × String)) : HResp :=
  let ps := if params = [] then ["query", "q"] else params
  let q := ps.foldl (fun acc p => if acc = "" then urlGet reqParams p else acc) ""
  if q = "" then ⟨400, JValue.obj [("error", JValue.str "query must not be empty")]⟩
  else
    let o := Query q (engine q) (some (GoType.tPtr (GoType.tSlice (GoType.tMap GoType.tInterface))))
    match o.err with
    | some msg => ⟨400, JValue.obj [("error", JValue.str msg)]⟩
    | none =>
      match o.out with
      | some (MatOut.maps xs) => ⟨200, JValue.arr (xs.map JValue.obj)⟩
      | _ => ⟨200, JValue.arr []⟩

/-- The result of calling `Handler`: a panic (a Go `panic` escapes the
call) or the returned request handler. -/
inductive HandlerResult where
  | panicked (msg : String) : HandlerResult
  | handler (h : List (String × String) → HResp) : HandlerResult

/-- Source `Handler` (gosql.go): panic unless the connection is
read-only, else return the serving closure. -/
def Handler (db : DBConn) (engine : String → Except String (List String × List (List JValue)))
    (params : List String) : HandlerResult :=
  if !db.readOnly then HandlerResult.panicked "must not serve a writable db - set ReadOnly to true"
  else HandlerResult.handler (handlerBody engine params)

/-! Derived notions used by the specification theorems. -/

/-- The pending migrations of a run: the sorted keys minus the applied
set, in sorted order. The theorems prove this is exactly what the apply
loop processes. -/
def pendingOf (migs : List (String × String)) (st : DBState) : List String :=
  (sortedKeys migs).filter fun k => decide (k ∉ st.ledger)

/-- The side effects of applying the given migrations in order: each body
execution immediately followed by its ledger insert. -/
def migEvents (ks : List String) : List MEvent :=
  ks.flatMap fun k => [MEvent.exec k, MEvent.record k]

/-- Column names with duplicates removed, keeping first positions: the
key set of a Go map filled by assigning each column in order. -/
def dedupCols (cols : List String) : List String :=
  cols.foldl (fun ks c => if c ∈ ks then ks else ks ++ [c]) []

/-- A structured (non-scalar) dynamic value: a JSON object or array. -/
def isStructured : JValue → Bool
  | JValue.obj _ => true
  | JValue.arr _ => true
  | _ => false

/-! Properties of the string order. -/

theorem leChars_cons (a b : Char) (as bs : List Char) :
    leChars (a :: as) (b :: bs) = true ↔
      a.toNat < b.toNat ∨ (a.toNat = b.toNat ∧ leChars as bs = true) := by
  by_cases h1 : a.toNat < b.toNat
  · simp [leChars, h1]
  · by_cases h2 : b.toNat < a.toNat
    · simp [leChars, h1, h2]
      omega
    · have h3 : a.toNat = b.toNat := by omega
      simp [leChars, h1, h2, h3]

theorem leChars_total : ∀ as bs : List Char, leChars as bs = true ∨ leChars bs as = true := by
  intro as
  induction as with
  | nil => intro bs; exact Or.inl rfl
  | cons a as ih =>
    intro bs
    cases bs with
    | nil => exact Or.inr rfl
    | cons b bs =>
      rcases Nat.lt_trichotomy a.toNat b.toNat with h | h | h
      · exact Or.inl ((leChars_cons a b as bs).2 (Or.inl h))
      · rcases ih bs with h4 | h4
        · exact Or.inl ((leChars_cons a b as bs).2 (Or.inr ⟨h, h4⟩))
        · exact Or.inr ((leChars_cons b a bs as).2 (Or.inr ⟨h.symm, h4⟩))
      · exact Or.inr ((leChars_cons b a bs as).2 (Or.inl h))

theorem leChars_trans : ∀ as bs cs : List Char,
    leChars as bs = true → leChars bs cs = true → leChars as cs = true := by
  intro as
  induction as with
  | nil => intro bs cs _ _; rfl
  | cons a as ih =>
    intro bs cs hab hbc
    cases bs with
    | nil => simp [leChars] at hab
    | cons b bs =>
      cases cs with
      | nil => simp [leChars] at hbc
      | cons c cs =>
        rcases (leChars_cons a b as bs).1 hab with h1 | ⟨h1, h1r⟩ <;>
          rcases (leChars_cons b c bs cs).1 hbc with h2 | ⟨h2, h2r⟩
        · exact (leChars_cons a c as cs).2 (Or.inl (by omega))
        · exact (leChars_cons a c as cs).2 (Or.inl (by omega))
        · exact (leChars_cons a c as cs).2 (Or.inl (by omega))
        · exact (leChars_cons a c as cs).2 (Or.inr ⟨by omega, ih bs cs h1r h2r⟩)

instance : IsTotal String strLe := ⟨fun a b => leChars_total a.data b.data⟩

instance : IsTrans String strLe := ⟨fun a b c => leChars_trans a.data b.data c.data⟩

/-! Properties of the migration apply loop. -/

theorem applyLoop_filter (bf insf : String → Bool) (applied : List String) :
    ∀ (ks : List String) (st : DBState),
    applyLoop bf insf applied ks st =
      applyLoop bf insf applied (ks.filter fun k => decide (k ∉ applied)) st := by
  intro ks
  induction ks with
  | nil => intro st; rfl
  | cons k ks ih =>
    intro st
    by_cases h : k ∈ applied
    · simp [applyLoop, h, List.filter_cons, ih]
    · by_cases hb : bf k = true
      · simp [applyLoop, h, hb, List.filter_cons]
      · by_cases hi : insf k = true
        · simp [applyLoop, h, hb, hi, List.filter_cons]
        · simp [applyLoop, h, hb, hi, List.filter_cons, ih]

theorem applyLoop_fresh_ok (bf insf : String → Bool) (applied : List String) :
    ∀ (ks : List String) (st : DBState),
    (∀ k ∈ ks, k ∉ applied ∧ bf k = false ∧ insf k = false) →
    applyLoop bf insf applied ks st =
      (⟨st.ledger ++ ks, st.trace ++ migEvents ks⟩, none) := by
  intro ks
  induction ks with
  | nil => intro st _; simp [applyLoop, migEvents]
  | cons k ks ih =>
    intro st h
    obtain ⟨hk, hb, hi⟩ := h k (List.mem_cons_self k ks)
    have hrest : ∀ k' ∈ ks, k' ∉ applied ∧ bf k' = false ∧ insf k' = false :=
      fun k' hk' => h k' (List.mem_cons_of_mem k hk')
    simp only [applyLoop, if_neg hk, hb, Bool.false_eq_true, if_false, hi]
    rw [ih _ hrest]
    simp [migEvents, List.append_assoc]

theorem applyLoop_fresh_prefix (bf insf : String → Bool) (applied : List String) :
    ∀ (p1 rest : List String) (st : DBState),
    (∀ k ∈ p1, k ∉ applied ∧ bf k = false ∧ insf k = false) →
    applyLoop bf insf applied (p1 ++ rest) st =
      applyLoop bf insf applied rest ⟨st.ledger ++ p1, st.trace ++ migEvents p1⟩ := by
  intro p1
  induction p1 with
  | nil => intro rest st _; simp [migEvents]
  | cons k p1 ih =>
    intro rest st h
    obtain ⟨hk, hb, hi⟩ := h k (List.mem_cons_self k p1)
    have hrest : ∀ k' ∈ p1, k' ∉ applied ∧ bf k' = false ∧ insf k' = false :=
      fun k' hk' => h k' (List.mem_cons_of_mem k hk')
    simp only [List.cons_append, applyLoop, if_neg hk, hb, Bool.false_eq_true, if_false, hi]
    rw [show p1.append rest = p1 ++ rest from rfl, ih rest _ hrest]
    simp [migEvents, List.append_assoc]

theorem applyLoop_head_body_fail (bf insf : String → Bool) (applied : List String)
    (k : String) (ks : List String) (st : DBState) (hk : k ∉ applied) (hb : bf k = true) :
    applyLoop bf insf applied (k :: ks) st = (st, some (execFailMsg k)) := by
  simp [applyLoop, hk, hb]

theorem applyLoop_head_insert_fail (bf insf : String → Bool) (applied : List String)
    (k : String) (ks : List String) (st : DBState) (hk : k ∉ applied) (hb : bf k = false)
    (hi : insf k = true) :
    applyLoop bf insf applied (k :: ks) st =
      (⟨st.ledger, st.trace ++ [MEvent.exec k]⟩, some (insertFailMsg k)) := by
  simp [applyLoop, hk, hb, hi]

theorem applyLoop_exec_count_applied (bf insf : String → Bool) (applied : List String)
    (name : String) (hname : name ∈ applied) :
    ∀ (ks : List String) (st : DBState),
    List.count (MEvent.exec name) (applyLoop bf insf applied ks st).1.trace =
      List.count (MEvent.exec name) st.trace := by
  intro ks
  induction ks with
  | nil => intro st; rfl
  | cons k ks ih =>
    intro st
    by_cases h : k ∈ applied
    · simp only [applyLoop, if_pos h]; exact ih st
    · have hkn : MEvent.exec k ≠ MEvent.exec name := by
        intro heq
        exact h (by cases heq; exact hname)
      by_cases hb : bf k = true
      · simp [applyLoop, h, hb]
      · by_cases hi : insf k = true
        · simp [applyLoop, h, hb, hi, List.count_append, List.count_singleton, hkn]
        · simp only [applyLoop, if_neg h, hb, Bool.false_eq_true, if_false, hi]
          rw [ih]
          simp [List.count_append, List.count_cons, hkn, Ne.symm hkn]

/-! Migrate-level consequences. -/

theorem migrate_eq_pending (bf insf : String → Bool) (migs : List (String × String))
    (st : DBState) :
    migrate bf insf migs st = applyLoop bf insf st.ledger (pendingOf migs st) st :=
  applyLoop_filter bf insf st.ledger (sortedKeys migs) st

theorem pendingOf_fresh (migs : List (String × String)) (st : DBState) :
    ∀ k ∈ pendingOf migs st, k ∉ st.ledger := by
  intro k hk
  have := List.of_mem_filter hk
  simpa using this

theorem migrate_noFail (migs : List (String × String)) (st : DBState) :
    migrate noFail noFail migs st =
      (⟨st.ledger ++ pendingOf migs st, st.trace ++ migEvents (pendingOf migs st)⟩, none) := by
  rw [migrate_eq_pending]
  exact applyLoop_fresh_ok _ _ _ _ st
    (fun k hk => ⟨pendingOf_fresh migs st k hk, rfl, rfl⟩)

theorem pendingOf_empty_ledger (migs : List (String × String)) :
    pendingOf migs ⟨[], []⟩ = sortedKeys migs := by
  simp [pendingOf]

theorem pendingOf_all_applied (migs : List (String × String)) (st : DBState)
    (h : ∀ k ∈ sortedKeys migs, k ∈ st.ledger) : pendingOf migs st = [] := by
  simp only [pendingOf, List.filter_eq_nil_iff]
  intro k hk
  simp [h k hk]

theorem count_exec_migEvents (n : String) :
    ∀ ks : List String, List.count (MEvent.exec n) (migEvents ks) = ks.count n := by
  intro ks
  induction ks with
  | nil => rfl
  | cons k ks ih =>
    simp only [migEvents, List.flatMap_cons] at ih ⊢
    by_cases h : k = n
    · subst h
      simp [List.count_cons, List.count_append, ih]
    · simp [List.count_cons, List.count_append, ih, h, Ne.symm h]

theorem sortedKeys_perm (migs : List (String × String)) :
    (sortedKeys migs).Perm (migs.map Prod.fst) :=
  List.perm_insertionSort strLe (migs.map Prod.fst)

theorem pendingOf_after (migs : List (String × String)) (st : DBState) (tr : List MEvent) :
    pendingOf migs ⟨st.ledger ++ pendingOf migs st, tr⟩ = [] := by
  refine pendingOf_all_applied migs _ (fun k hk => ?_)
  by_cases h : k ∈ st.ledger
  · exact List.mem_append_left _ h
  · exact List.mem_append_right _ (List.mem_filter.2 ⟨hk, by simpa using h⟩)

theorem open_noFail_stable (migs : List (String × String)) (st : DBState)
    (h : pendingOf migs st = []) :
    Open noFail noFail migs false st = (st, none) := by
  have h1 := migrate_noFail migs st
  rw [h] at h1
  have h1' : migrate noFail noFail migs st = (st, none) := by
    rw [h1]
    simp [migEvents]
  simp [Open, h1']

theorem open_noFail_empty (migs : List (String × String)) :
    Open noFail noFail migs false ⟨[], []⟩ =
      (⟨sortedKeys migs, migEvents (sortedKeys migs)⟩, none) := by
  have h1 : migrate noFail noFail migs ⟨[], []⟩ =
      (⟨sortedKeys migs, migEvents (sortedKeys migs)⟩, none) := by
    rw [migrate_noFail]
    simp [pendingOf_empty_ledger]
  have h2 : pendingOf migs ⟨sortedKeys migs, migEvents (sortedKeys migs)⟩ = [] := by
    have := pendingOf_after migs ⟨[], []⟩ (migEvents (sortedKeys migs))
    simpa [pendingOf_empty_ledger] using this
  have h3 : migrate noFail noFail migs ⟨sortedKeys migs, migEvents (sortedKeys migs)⟩ =
      (⟨sortedKeys migs, migEvents (sortedKeys migs)⟩, none) := by
    rw [migrate_noFail, h2]
    simp [migEvents]
  simp [Open, h1, h3]

/-- C2: a migration name present in the ledger is never re-executed by the
migration engine (for any failure behavior of bodies and inserts), and two
consecutive `Open` calls on an initially empty database execute each body
exactly once and leave exactly one ledger row per migration name. -/
theorem c2_migration_idempotence (migs : List (String × String))
    (hnd : (migs.map Prod.fst).Nodup) :
    (∀ (bf insf : String → Bool) (st : DBState) (name : String), name ∈ st.ledger →
      List.count (MEvent.exec name) ((migrate bf insf migs st).1.trace) =
        List.count (MEvent.exec name) st.trace) ∧
    (∀ name : String,
      List.count (MEvent.exec name)
          ((Open noFail noFail migs false ((Open noFail noFail migs false ⟨[], []⟩).1)).1.trace) =
        (if name ∈ migs.map Prod.fst then 1 else 0) ∧
      ((Open noFail noFail migs false ((Open noFail noFail migs false ⟨[], []⟩).1)).1.ledger.count name =
        (if name ∈ migs.map Prod.fst then 1 else 0))) ∧
    (Open noFail noFail migs false ((Open noFail noFail migs false ⟨[], []⟩).1)).1.ledger.length =
      migs.length := by
  have hopen1 := open_noFail_empty migs
  have hstable : Open noFail noFail migs false ⟨sortedKeys migs, migEvents (sortedKeys migs)⟩ =
      (⟨sortedKeys migs, migEvents (sortedKeys migs)⟩, none) :=
    open_noFail_stable migs _ (pendingOf_all_applied migs _ (fun k hk => hk))
  have hnd' : (sortedKeys migs).Nodup := ((sortedKeys_perm migs).nodup_iff).2 hnd
  have hcount : ∀ name : String, (sortedKeys migs).count name =
      (if name ∈ migs.map Prod.fst then 1 else 0) := by
    intro name
    by_cases hm : name ∈ migs.map Prod.fst
    · rw [if_pos hm]
      exact List.count_eq_one_of_mem hnd' (((sortedKeys_perm migs).mem_iff).2 hm)
    · rw [if_neg hm]
      exact List.count_eq_zero_of_not_mem (fun hc => hm (((sortedKeys_perm migs).mem_iff).1 hc))
  refine ⟨?_, ?_, ?_⟩
  · intro bf insf st name hname
    rw [migrate_eq_pending]
    exact applyLoop_exec_count_applied bf insf st.ledger name hname _ st
  · intro name
    rw [hopen1]
    simp only [hstable]
    exact ⟨by rw [count_exec_migEvents]; exact hcount name, hcount name⟩
  · rw [hopen1]
    simp only [hstable]
    rw [(sortedKeys_perm migs).length_eq, List.length_map]

/-- C2 witness: the theorem applied to a concrete two-migration set; after
two opens each body ran once and the ledger holds one row per name. -/
theorem c2_migration_idempotence_witness :
    ([("0002_b", "B"), ("0001_a", "A")].map (Prod.fst (α := String) (β := String))).Nodup ∧
    (List.count (MEvent.exec "0001_a")
        ((Open noFail noFail [("0002_b", "B"), ("0001_a", "A")] false
          ((Open noFail noFail [("0002_b", "B"), ("0001_a", "A")] false ⟨[], []⟩).1)).1.trace) =
      (if "0001_a" ∈ [("0002_b", "B"), ("0001_a", "A")].map Prod.fst then 1 else 0)) ∧
    ((Open noFail noFail [("0002_b", "B"), ("0001_a", "A")] false
        ((Open noFail noFail [("0002_b", "B"), ("0001_a", "A")] false ⟨[], []⟩).1)).1.ledger.length = 2) :=
  ⟨by decide,
    ((c2_migration_idempotence [("0002_b", "B"), ("0001_a", "A")] (by decide)).2.1 "0001_a").1,
    (c2_migration_idempotence [("0002_b", "B"), ("0001_a", "A")] (by decide)).2.2⟩

theorem count_record_migEvents (n : String) :
    ∀ ks : List String, List.count (MEvent.record n) (migEvents ks) = ks.count n := by
  intro ks
  induction ks with
  | nil => rfl
  | cons k ks ih =>
    simp only [migEvents, List.flatMap_cons] at ih ⊢
    by_cases h : k = n
    · subst h
      simp [List.count_cons, List.count_append, ih]
    · simp [List.count_cons, List.count_append, ih, h, Ne.symm h]

theorem pendingOf_append_ledger (migs : List (String × String)) (st : DBState)
    (p1 : List String) (tr : List MEvent) :
    pendingOf migs ⟨st.ledger ++ p1, tr⟩ =
      (pendingOf migs st).filter (fun k => decide (k ∉ p1)) := by
  unfold pendingOf
  rw [List.filter_filter]
  apply List.filter_congr
  intro k _
  by_cases h1 : k ∈ st.ledger <;> by_cases h2 : k ∈ p1 <;> simp [h1, h2]

/-- C3: with no failures, the migration engine applies exactly the pending
list — the lexicographically sorted keys minus the applied set — in that
order, each body execution immediately followed by its ledger insert; the
pending list is sorted and is a permutation of the set difference; sources
named 0001_x, 0002_y, 0010_z are applied in that order. -/
theorem c3_pending_lex_order (migs : List (String × String)) (st : DBState) :
    migrate noFail noFail migs st =
      (⟨st.ledger ++ pendingOf migs st, st.trace ++ migEvents (pendingOf migs st)⟩, none) ∧
    List.Sorted strLe (pendingOf migs st) ∧
    (pendingOf migs st).Perm ((migs.map Prod.fst).filter fun k => decide (k ∉ st.ledger)) ∧
    migrate noFail noFail [("0010_z", "zz"), ("0001_x", "xx"), ("0002_y", "yy")] ⟨[], []⟩ =
      (⟨["0001_x", "0002_y", "0010_z"],
        [MEvent.exec "0001_x", MEvent.record "0001_x", MEvent.exec "0002_y", MEvent.record "0002_y",
         MEvent.exec "0010_z", MEvent.record "0010_z"]⟩, none) :=
  ⟨migrate_noFail migs st,
    (List.sorted_insertionSort strLe (migs.map Prod.fst)).filter _,
    (sortedKeys_perm migs).filter _,
    by decide⟩

/-- C4: when a pending migration's body execution or ledger insert fails,
`Open` returns that migration's error, the ledger rows of the migrations
applied earlier in the same run remain committed, and no later pending
migration is attempted (no body execution, no ledger row). -/
theorem c4_migration_failure_halts (bf insf : String → Bool) (migs : List (String × String))
    (st : DBState) (p1 p2 : List String) (f : String)
    (hnd : (migs.map Prod.fst).Nodup)
    (hsplit : pendingOf migs st = p1 ++ f :: p2)
    (hp1 : ∀ k ∈ p1, bf k = false ∧ insf k = false)
    (hf : bf f = true ∨ insf f = true) :
    ((Open bf insf migs false st).2 = some (execFailMsg f) ∨
      (Open bf insf migs false st).2 = some (insertFailMsg f)) ∧
    (Open bf insf migs false st).1.ledger = st.ledger ++ p1 ∧
    ∀ k ∈ p2,
      List.count (MEvent.exec k) (Open bf insf migs false st).1.trace =
        List.count (MEvent.exec k) st.trace ∧
      List.count (MEvent.record k) (Open bf insf migs false st).1.trace =
        List.count (MEvent.record k) st.trace ∧
      k ∉ (Open bf insf migs false st).1.ledger := by
  have hnd' : (sortedKeys migs).Nodup := ((sortedKeys_perm migs).nodup_iff).2 hnd
  have hpnd : (p1 ++ f :: p2).Nodup := by
    rw [← hsplit]
    exact hnd'.filter _
  obtain ⟨hp1nd, hfp2nd, hdisj⟩ := List.nodup_append.1 hpnd
  have hfresh : ∀ k ∈ p1 ++ f :: p2, k ∉ st.ledger := by
    intro k hk
    exact pendingOf_fresh migs st k (hsplit ▸ hk)
  have hfp1 : f ∉ p1 := fun hmem => hdisj hmem (List.mem_cons_self f p2)
  have hp2p1 : ∀ k ∈ p2, k ∉ p1 := fun k hk hmem => hdisj hmem (List.mem_cons_of_mem f hk)
  have hfp2 : f ∉ p2 := (List.nodup_cons.1 hfp2nd).1
  have hfna : f ∉ st.ledger := hfresh f (List.mem_append_right _ (List.mem_cons_self f p2))
  have hm1 : migrate bf insf migs st =
      applyLoop bf insf st.ledger (f :: p2) ⟨st.ledger ++ p1, st.trace ++ migEvents p1⟩ := by
    rw [migrate_eq_pending, hsplit]
    exact applyLoop_fresh_prefix bf insf st.ledger p1 (f :: p2) st
      (fun k hk => ⟨hfresh k (List.mem_append_left _ hk), (hp1 k hk).1, (hp1 k hk).2⟩)
  have hpend2 : ∀ tr : List MEvent, pendingOf migs ⟨st.ledger ++ p1, tr⟩ = f :: p2 := by
    intro tr
    rw [pendingOf_append_ledger, hsplit, List.filter_append]
    have e1 : p1.filter (fun k => decide (k ∉ p1)) = [] :=
      List.filter_eq_nil_iff.2 (fun k hk => by simp [hk])
    have e2 : (f :: p2).filter (fun k => decide (k ∉ p1)) = f :: p2 :=
      List.filter_eq_self.2 (fun k hk => by
        rcases List.mem_cons.1 hk with h | h
        · subst h; simp [hfp1]
        · simp [hp2p1 k h])
    rw [e1, e2, List.nil_append]
  have hfna2 : f ∉ st.ledger ++ p1 := by
    intro hmem
    rcases List.mem_append.1 hmem with h | h
    · exact hfna h
    · exact hfp1 h
  have hcounts : ∀ k ∈ p2, k ≠ f ∧ k ∉ p1 ∧ k ∉ st.ledger := by
    intro k hk
    refine ⟨fun heq => hfp2 (heq ▸ hk), hp2p1 k hk, ?_⟩
    exact hfresh k (List.mem_append_right _ (List.mem_cons_of_mem f hk))
  by_cases hbf : bf f = true
  · -- the body of f fails: both migrate calls stop at f with no state change
    have h1 : migrate bf insf migs st =
        (⟨st.ledger ++ p1, st.trace ++ migEvents p1⟩, some (execFailMsg f)) := by
      rw [hm1]
      exact applyLoop_head_body_fail bf insf st.ledger f p2 _ hfna hbf
    have h2 : migrate bf insf migs ⟨st.ledger ++ p1, st.trace ++ migEvents p1⟩ =
        (⟨st.ledger ++ p1, st.trace ++ migEvents p1⟩, some (execFailMsg f)) := by
      rw [migrate_eq_pending, hpend2]
      exact applyLoop_head_body_fail bf insf _ f p2 _ hfna2 hbf
    have hopen : Open bf insf migs false st =
        (⟨st.ledger ++ p1, st.trace ++ migEvents p1⟩, some (execFailMsg f)) := by
      simp [Open, h1, h2]
    rw [hopen]
    refine ⟨Or.inl rfl, rfl, ?_⟩
    intro k hk
    obtain ⟨hkf, hkp1, hkl⟩ := hcounts k hk
    refine ⟨?_, ?_, ?_⟩
    · rw [List.count_append, count_exec_migEvents, List.count_eq_zero_of_not_mem hkp1]
      omega
    · rw [List.count_append, count_record_migEvents, List.count_eq_zero_of_not_mem hkp1]
      omega
    · intro hmem
      rcases List.mem_append.1 hmem with h | h
      · exact hkl h
      · exact hkp1 h
  · -- the body of f succeeds but its ledger insert fails: each migrate call
    -- re-executes the body of f and stops at the insert
    have hbf' : bf f = false := by
      cases hv : bf f
      · rfl
      · exact absurd hv hbf
    have hinsf : insf f = true := by
      rcases hf with h | h
      · exact absurd h hbf
      · exact h
    have h1 : migrate bf insf migs st =
        (⟨st.ledger ++ p1, st.trace ++ (migEvents p1 ++ [MEvent.exec f])⟩, some (insertFailMsg f)) := by
      rw [hm1, applyLoop_head_insert_fail bf insf st.ledger f p2 _ hfna hbf' hinsf]
      simp [List.append_assoc]
    have h2 : migrate bf insf migs ⟨st.ledger ++ p1, st.trace ++ (migEvents p1 ++ [MEvent.exec f])⟩ =
        (⟨st.ledger ++ p1, st.trace ++ (migEvents p1 ++ [MEvent.exec f, MEvent.exec f])⟩,
          some (insertFailMsg f)) := by
      rw [migrate_eq_pending, hpend2,
        applyLoop_head_insert_fail bf insf _ f p2 _ hfna2 hbf' hinsf]
      simp [List.append_assoc]
    have hopen : Open bf insf migs false st =
        (⟨st.ledger ++ p1, st.trace ++ (migEvents p1 ++ [MEvent.exec f, MEvent.exec f])⟩,
          some (insertFailMsg f)) := by
      simp [Open, h1, h2]
    rw [hopen]
    refine ⟨Or.inr rfl, rfl, ?_⟩
    intro k hk
    obtain ⟨hkf, hkp1, hkl⟩ := hcounts k hk
    have hne : MEvent.exec k ≠ MEvent.exec f := fun heq => hkf (MEvent.exec.inj heq)
    refine ⟨?_, ?_, ?_⟩
    · simp [List.count_append, count_exec_migEvents, List.count_eq_zero_of_not_mem hkp1,
        List.count_cons, hne, Ne.symm hne]
    · simp [List.count_append, count_record_migEvents, List.count_eq_zero_of_not_mem hkp1,
        List.count_cons]
    · intro hmem
      rcases List.mem_append.1 hmem with h | h
      · exact hkl h
      · exact hkp1 h

/-- C4 witness: a concrete three-migration run where the second body
fails; the first ledger row is committed, the error is returned, and the
third migration is never attempted. -/
theorem c4_migration_failure_halts_witness :
    (([("0001_a", "A"), ("0002_b", "B"), ("0003_c", "C")].map
        (Prod.fst (α := String) (β := String))).Nodup) ∧
    (((Open (fun k => k = "0002_b") noFail [("0001_a", "A"), ("0002_b", "B"), ("0003_c", "C")]
          false ⟨[], []⟩).2 = some (execFailMsg "0002_b") ∨
      (Open (fun k => k = "0002_b") noFail [("0001_a", "A"), ("0002_b", "B"), ("0003_c", "C")]
          false ⟨[], []⟩).2 = some (insertFailMsg "0002_b")) ∧
    (Open (fun k => k = "0002_b") noFail [("0001_a", "A"), ("0002_b", "B"), ("0003_c", "C")]
        false ⟨[], []⟩).1.ledger = [] ++ ["0001_a"] ∧
    ∀ k ∈ ["0003_c"],
      List.count (MEvent.exec k)
          (Open (fun k => k = "0002_b") noFail [("0001_a", "A"), ("0002_b", "B"), ("0003_c", "C")]
            false ⟨[], []⟩).1.trace = List.count (MEvent.exec k) ([] : List MEvent) ∧
      List.count (MEvent.record k)
          (Open (fun k => k = "0002_b") noFail [("0001_a", "A"), ("0002_b", "B"), ("0003_c", "C")]
            false ⟨[], []⟩).1.trace = List.count (MEvent.record k) ([] : List MEvent) ∧
      k ∉ (Open (fun k => k = "0002_b") noFail [("0001_a", "A"), ("0002_b", "B"), ("0003_c", "C")]
            false ⟨[], []⟩).1.ledger) :=
  ⟨by decide,
    c4_migration_failure_halts (fun k => decide (k = "0002_b")) noFail
      [("0001_a", "A"), ("0002_b", "B"), ("0003_c", "C")] ⟨[], []⟩
      ["0001_a"] ["0003_c"] "0002_b" (by decide) (by decide)
      (by decide) (Or.inl (by decide))⟩

/-- C1 counterexample: the claim's allow-list includes the data-version
and user-version introspection pragmas, but the installed authorizer
denies both. -/
theorem c1_authorizer_counterexample :
    authorizer SQLITE_PRAGMA "data_version" "" "" = SQLITE_DENY ∧
    authorizer SQLITE_PRAGMA "user_version" "" "" = SQLITE_DENY ∧
    authorizer SQLITE_PRAGMA "data_version" "" "" ≠ SQLITE_OK ∧
    authorizer SQLITE_PRAGMA "user_version" "" "" ≠ SQLITE_OK := by decide

/-- C1 (amended): the read-only authorizer allows exactly `SELECT`,
`READ`, `FUNCTION`, and the single pragma `table_info`; every other
action — `PRAGMA` writes and other pragmas (including data-version and
user-version reads), `ATTACH`, and DDL/DML — is denied. -/
theorem c1_authorizer_allowlist (op : Nat) (a1 a2 a3 : String) :
    (authorizer op a1 a2 a3 = SQLITE_OK ↔
      op = SQLITE_SELECT ∨ op = SQLITE_READ ∨ op = SQLITE_FUNCTION ∨
        (op = SQLITE_PRAGMA ∧ a1 = "table_info")) ∧
    (authorizer op a1 a2 a3 = SQLITE_OK ∨ authorizer op a1 a2 a3 = SQLITE_DENY) ∧
    (op = SQLITE_CREATE_TABLE ∨ op = SQLITE_INSERT ∨ op = SQLITE_UPDATE ∨
      op = SQLITE_DELETE ∨ op = SQLITE_DROP_TABLE ∨ op = SQLITE_ALTER_TABLE ∨
      op = SQLITE_ATTACH ∨ (op = SQLITE_PRAGMA ∧ a1 ≠ "table_info") →
      authorizer op a1 a2 a3 = SQLITE_DENY) := by
  simp only [authorizer, SQLITE_OK, SQLITE_DENY, SQLITE_SELECT, SQLITE_READ, SQLITE_FUNCTION,
    SQLITE_PRAGMA, SQLITE_CREATE_TABLE, SQLITE_INSERT, SQLITE_UPDATE, SQLITE_DELETE,
    SQLITE_DROP_TABLE, SQLITE_ALTER_TABLE, SQLITE_ATTACH]
  by_cases h1 : op = 21 ∨ op = 20 ∨ op = 31
  · rw [if_pos h1]
    refine ⟨by simp; tauto, Or.inl rfl, ?_⟩
    intro hbad
    rcases h1 with h | h | h <;>
      rcases hbad with hb | hb | hb | hb | hb | hb | hb | ⟨hb, _⟩ <;> omega
  · rw [if_neg h1]
    by_cases h2 : op = 19 ∧ a1 = "table_info"
    · rw [if_pos h2]
      obtain ⟨h2a, h2b⟩ := h2
      refine ⟨by simp; tauto, Or.inl rfl, ?_⟩
      intro hbad
      rcases hbad with hb | hb | hb | hb | hb | hb | hb | ⟨_, hb2⟩
      · omega
      · omega
      · omega
      · omega
      · omega
      · omega
      · omega
      · exact absurd h2b hb2
    · rw [if_neg h2]
      refine ⟨?_, Or.inr rfl, fun _ => rfl⟩
      constructor
      · intro h
        exact absurd h (by omega)
      · intro hr
        exfalso
        tauto

/-- C1 witness: the amended characterization applied at concrete actions:
`ATTACH` is denied, `SELECT` is allowed. -/
theorem c1_authorizer_allowlist_witness :
    authorizer SQLITE_ATTACH "other.db" "" "" = SQLITE_DENY ∧
    authorizer SQLITE_SELECT "" "" "" = SQLITE_OK :=
  ⟨(c1_authorizer_allowlist SQLITE_ATTACH "other.db" "" "").2.2
      (Or.inr (Or.inr (Or.inr (Or.inr (Or.inr (Or.inr (Or.inl rfl))))))),
    ((c1_authorizer_allowlist SQLITE_SELECT "" "" "").1).2 (Or.inl rfl)⟩

/-- C5: a `Query` whose result target is not a pointer to a slice — a
bare record, any non-pointer, or nil — returns the shape error naming
the target, and the engine is never queried. -/
theorem c5_query_shape_guard (queryString : String)
    (engine : Except String (List String × List (List JValue))) (target : Option GoType)
    (h : validTarget target = false) :
    (Query queryString engine target).queried = false ∧
    (Query queryString engine target).err =
      some (queryString ++ ": " ++
        ("cannot unmarshal query results into " ++ describeTarget target)) := by
  rcases target with _ | t
  · exact ⟨rfl, rfl⟩
  · cases t with
    | tPtr e =>
      cases e <;> simp_all [Query, queryImpl, validTarget]
    | _ => exact ⟨rfl, rfl⟩

/-- C5 witness: a bare-record target and a nil target are both rejected
without querying the engine. -/
theorem c5_query_shape_guard_witness :
    validTarget (some (GoType.tStruct [("A", GoType.tInt)])) = false ∧
    (Query "SELECT 1" (Except.ok (["A"], [[JValue.num 1]]))
        (some (GoType.tStruct [("A", GoType.tInt)]))).queried = false ∧
    validTarget none = false ∧
    (Query "SELECT 1" (Except.ok (["A"], [[JValue.num 1]])) none).err =
      some ("SELECT 1" ++ ": " ++ ("cannot unmarshal query results into " ++ describeTarget none)) :=
  ⟨rfl,
    (c5_query_shape_guard "SELECT 1" (Except.ok (["A"], [[JValue.num 1]]))
      (some (GoType.tStruct [("A", GoType.tInt)])) rfl).1,
    rfl,
    (c5_query_shape_guard "SELECT 1" (Except.ok (["A"], [[JValue.num 1]])) none rfl).2⟩

/-- C8: `Handler` panics whenever the connection was not opened
read-only, and returns the serving handler exactly when it was. -/
theorem c8_handler_requires_readonly (db : DBConn)
    (engine : String → Except String (List String × List (List JValue))) (params : List String) :
    (db.readOnly = false →
      Handler db engine params =
        HandlerResult.panicked "must not serve a writable db - set ReadOnly to true") ∧
    (db.readOnly = true →
      Handler db engine params = HandlerResult.handler (handlerBody engine params)) := by
  constructor <;> intro h <;> simp [Handler, h]

/-- C8 witness: a writable connection panics, a read-only one serves. -/
theorem c8_handler_requires_readonly_witness :
    (DBConn.mk false).readOnly = false ∧
    Handler ⟨false⟩ (fun _ => Except.error "closed") [] =
      HandlerResult.panicked "must not serve a writable db - set ReadOnly to true" ∧
    (DBConn.mk true).readOnly = true ∧
    Handler ⟨true⟩ (fun _ => Except.error "closed") [] =
      HandlerResult.handler (handlerBody (fun _ => Except.error "closed") []) :=
  ⟨rfl, (c8_handler_requires_readonly ⟨false⟩ (fun _ => Except.error "closed") []).1 rfl,
    rfl, (c8_handler_requires_readonly ⟨true⟩ (fun _ => Except.error "closed") []).2 rfl⟩

theorem insert_foldl_eq (kvs : List (String × GoVal)) :
    kvs.foldl (fun (acc : List String × List String × List GoVal) kv =>
        (acc.1 ++ [kv.1], acc.2.1 ++ ["?"], acc.2.2 ++ [insertArg kv.2])) ([], [], []) =
      (kvs.map Prod.fst, kvs.map fun _ => "?", kvs.map fun kv => insertArg kv.2) := by
  have hgen : ∀ (l : List (String × GoVal)) (a b : List String) (c : List GoVal),
      l.foldl (fun (acc : List String × List String × List GoVal) kv =>
          (acc.1 ++ [kv.1], acc.2.1 ++ ["?"], acc.2.2 ++ [insertArg kv.2])) (a, b, c) =
        (a ++ l.map Prod.fst, b ++ l.map fun _ => "?", c ++ l.map fun kv => insertArg kv.2) := by
    intro l
    induction l with
    | nil => intro a b c; simp
    | cons kv l ih =>
      intro a b c
      simp only [List.foldl_cons, ih, List.map_cons]
      simp [List.append_assoc]
  simpa using hgen kvs [] [] []

/-- C6 counterexample: the claim states that a record (struct) input has
its column list derived from its field set and a single-row INSERT
executed; the cited `Insert` instead rejects a struct input with the
unhandled-type error and never reaches `Exec`. -/
theorem c6_insert_struct_counterexample :
    Insert "t" (GoVal.vStruct [("A", GoVal.vInt 1)]) false = Except.error "unhandled type" ∧
    ∀ call : ExecCall, Insert "t" (GoVal.vStruct [("A", GoVal.vInt 1)]) false ≠ Except.ok call :=
  ⟨rfl, fun _ h => Except.noConfusion h⟩

/-- C6 (amended): for a mapping input, `Insert` derives the column list
and positional placeholders from the key set in enumeration order,
JSON-encodes nested composite values, and builds the single-row
`INSERT [OR IGNORE]` statement; every non-mapping input — including a
record (struct) — fails with the unhandled-type error returned to the
caller. -/
theorem c6_insert_map_only (table : String) (kvs : List (String × GoVal)) (ignore : Bool)
    (v : GoVal) (hv : ∀ kvs0, v ≠ GoVal.vMap kvs0) :
    Insert table (GoVal.vMap kvs) ignore =
      Except.ok
        ⟨"INSERT " ++ (if ignore then "OR IGNORE" else "") ++ " INTO " ++ table ++ " (" ++
            String.intercalate ", " (kvs.map Prod.fst) ++ ") VALUES (" ++
            String.intercalate ", " (kvs.map fun _ => "?") ++ ")",
          kvs.map fun kv => insertArg kv.2⟩ ∧
    Insert table v ignore = Except.error "unhandled type" := by
  constructor
  · simp only [Insert, insert_foldl_eq]
  · cases v with
    | vMap kvs0 => exact absurd rfl (hv kvs0)
    | vNull => rfl
    | vBool b => rfl
    | vInt n => rfl
    | vStr s => rfl
    | vSlice xs => rfl
    | vStruct fields => rfl

/-- C6 witness: a concrete map insert with a nested composite value
JSON-encoded, and a concrete scalar input rejected. -/
theorem c6_insert_map_only_witness :
    (∀ kvs0, GoVal.vStruct [("A", GoVal.vInt 1)] ≠ GoVal.vMap kvs0) ∧
    Insert "t" (GoVal.vMap [("a", GoVal.vInt 1), ("b", GoVal.vSlice [GoVal.vInt 2])]) true =
      Except.ok ⟨"INSERT OR IGNORE INTO t (a, b) VALUES (?, ?)",
        [GoVal.vInt 1, GoVal.vStr "[2]"]⟩ ∧
    Insert "t" (GoVal.vInt 5) false = Except.error "unhandled type" := by
  refine ⟨fun kvs0 h => GoVal.noConfusion h, ?_, ?_⟩
  · rw [(c6_insert_map_only "t" [("a", GoVal.vInt 1), ("b", GoVal.vSlice [GoVal.vInt 2])] true
      (GoVal.vInt 5) (fun _ h => GoVal.noConfusion h)).1]
    rfl
  · exact (c6_insert_map_only "t" [] false (GoVal.vInt 5)
      (fun _ h => GoVal.noConfusion h)).2

theorem skipWS_cons_of_not_ws (c : Char) (cs : List Char) (h : isJSONWS c = false) :
    skipWS (c :: cs) = c :: cs := by
  simp [skipWS, h]

theorem parseValue_brace (fuel : Nat) (cs cs' : List Char) (v : JValue) (rest : List Char)
    (hskip : skipWS cs = '\x7b' :: cs') (h : parseValue fuel cs = some (v, rest)) :
    ∃ kvs, v = JValue.obj kvs := by
  cases fuel with
  | zero => exact absurd h (by simp [parseValue])
  | succ f =>
    rw [parseValue, hskip] at h
    simp at h
    cases hp : parseObjBody f cs' with
    | none => rw [hp] at h; exact absurd h (by simp)
    | some pr =>
      rw [hp] at h
      simp only [Option.some.injEq, Prod.mk.injEq] at h
      exact ⟨pr.1, h.1.symm⟩

theorem parseValue_bracket (fuel : Nat) (cs cs' : List Char) (v : JValue) (rest : List Char)
    (hskip : skipWS cs = '[' :: cs') (h : parseValue fuel cs = some (v, rest)) :
    ∃ xs, v = JValue.arr xs := by
  cases fuel with
  | zero => exact absurd h (by simp [parseValue])
  | succ f =>
    rw [parseValue, hskip] at h
    simp at h
    cases hp : parseArrBody f cs' with
    | none => rw [hp] at h; exact absurd h (by simp)
    | some pr =>
      rw [hp] at h
      simp only [Option.some.injEq, Prod.mk.injEq] at h
      exact ⟨pr.1, h.1.symm⟩

theorem parse_obj_shaped (s : String) (v : JValue) (hsh : isJSONObjectString s = true)
    (hp : parse s = some v) : ∃ kvs, v = JValue.obj kvs := by
  simp only [isJSONObjectString, Bool.and_eq_true, decide_eq_true_eq] at hsh
  obtain ⟨⟨_, hhead⟩, _⟩ := hsh
  cases hd : s.data with
  | nil => rw [hd] at hhead; exact absurd hhead (by simp)
  | cons c t =>
    rw [hd] at hhead
    simp only [List.head?_cons, Option.some.injEq] at hhead
    subst hhead
    unfold parse at hp
    cases hpv : parseValue (2 * s.data.length + 2) s.data with
    | none => rw [hpv] at hp; exact absurd hp (by simp)
    | some pr =>
      rw [hpv] at hp
      have hskip : skipWS s.data = '\x7b' :: t := by
        rw [hd]
        exact skipWS_cons_of_not_ws _ _ (by decide)
      obtain ⟨v', rest⟩ := pr
      by_cases hws : skipWS rest = []
      · simp [hws] at hp
        subst hp
        exact parseValue_brace _ _ _ _ _ hskip hpv
      · simp [hws] at hp

theorem parse_arr_shaped (s : String) (v : JValue) (hsh : isJSONArrayString s = true)
    (hp : parse s = some v) : ∃ xs, v = JValue.arr xs := by
  simp only [isJSONArrayString, Bool.and_eq_true, decide_eq_true_eq] at hsh
  obtain ⟨⟨_, hhead⟩, _⟩ := hsh
  cases hd : s.data with
  | nil => rw [hd] at hhead; exact absurd hhead (by simp)
  | cons c t =>
    rw [hd] at hhead
    simp only [List.head?_cons, Option.some.injEq] at hhead
    subst hhead
    unfold parse at hp
    cases hpv : parseValue (2 * s.data.length + 2) s.data with
    | none => rw [hpv] at hp; exact absurd hp (by simp)
    | some pr =>
      rw [hpv] at hp
      have hskip : skipWS s.data = '[' :: t := by
        rw [hd]
        exact skipWS_cons_of_not_ws _ _ (by decide)
      obtain ⟨v', rest⟩ := pr
      by_cases hws : skipWS rest = []
      · simp [hws] at hp
        subst hp
        exact parseValue_bracket _ _ _ _ _ hskip hpv
      · simp [hws] at hp

/-- C7: a string converted into a dynamic slot is reinterpreted as the
parsed structured value exactly when it is a complete brace- or
bracket-delimited JSON document (and the parsed value is then an object
or array, never the literal string); a string without that shape passes
through untouched as a plain string. -/
theorem c7_convert_json_unwrap (s : String) :
    (∀ v : JValue, (isJSONObjectString s || isJSONArrayString s) = true → parse s = some v →
      convert (JValue.str s) = Except.ok v ∧ isStructured v = true) ∧
    ((isJSONObjectString s || isJSONArrayString s) = false →
      convert (JValue.str s) = Except.ok (JValue.str s)) := by
  constructor
  · intro v hsh hp
    refine ⟨by simp [convert, hsh, hp], ?_⟩
    rcases (Bool.or_eq_true _ _).mp hsh with h | h
    · obtain ⟨kvs, hv⟩ := parse_obj_shaped s v h hp
      rw [hv]; rfl
    · obtain ⟨xs, hv⟩ := parse_arr_shaped s v h hp
      rw [hv]; rfl
  · intro hsh
    simp [convert, hsh]

/-- C7 witness: the text `(\x7b"k":1\x7d)` unwraps to the structured object,
and a plain string passes through. -/
theorem c7_convert_json_unwrap_witness :
    (isJSONObjectString "\x7b\"k\":1\x7d" || isJSONArrayString "\x7b\"k\":1\x7d") = true ∧
    parse "\x7b\"k\":1\x7d" = some (JValue.obj [("k", JValue.num 1)]) ∧
    convert (JValue.str "\x7b\"k\":1\x7d") = Except.ok (JValue.obj [("k", JValue.num 1)]) ∧
    isStructured (JValue.obj [("k", JValue.num 1)]) = true ∧
    (isJSONObjectString "hello" || isJSONArrayString "hello") = false ∧
    convert (JValue.str "hello") = Except.ok (JValue.str "hello") :=
  ⟨rfl, rfl,
    ((c7_convert_json_unwrap "\x7b\"k\":1\x7d").1 (JValue.obj [("k", JValue.num 1)]) rfl rfl).1,
    ((c7_convert_json_unwrap "\x7b\"k\":1\x7d").1 (JValue.obj [("k", JValue.num 1)]) rfl rfl).2,
    rfl, (c7_convert_json_unwrap "hello").2 rfl⟩

theorem unmarshalLoop_append_ok {α : Type} (f : List JValue → Except String α)
    (rows2 : List (List JValue)) :
    ∀ (rows1 : List (List JValue)) (out : List α),
    unmarshalLoop f rows1 = (out, none) →
    unmarshalLoop f (rows1 ++ rows2) =
      (out ++ (unmarshalLoop f rows2).1, (unmarshalLoop f rows2).2) := by
  intro rows1
  induction rows1 with
  | nil =>
    intro out h
    simp only [unmarshalLoop, Prod.mk.injEq] at h
    simp [← h.1]
  | cons r rs ih =>
    intro out h
    cases hf : f r with
    | error msg =>
      have hstep : unmarshalLoop f (r :: rs) = ([], some msg) := by
        simp [unmarshalLoop, hf]
      rw [hstep] at h
      exact absurd h (by simp)
    | ok x =>
      have hstep : unmarshalLoop f (r :: rs) =
          (x :: (unmarshalLoop f rs).1, (unmarshalLoop f rs).2) := by
        simp [unmarshalLoop, hf]
      have hstep2 : unmarshalLoop f ((r :: rs) ++ rows2) =
          (x :: (unmarshalLoop f (rs ++ rows2)).1, (unmarshalLoop f (rs ++ rows2)).2) := by
        simp [unmarshalLoop, hf]
      rw [hstep] at h
      simp only [Prod.mk.injEq] at h
      obtain ⟨h1, h2⟩ := h
      have hrs : unmarshalLoop f rs = ((unmarshalLoop f rs).1, none) := by
        rw [← h2]
      rw [hstep2, ih (unmarshalLoop f rs).1 hrs]
      simp [← h1]

theorem unmarshalLoop_mem {α : Type} (f : List JValue → Except String α) :
    ∀ (rows : List (List JValue)) (x : α), x ∈ (unmarshalLoop f rows).1 →
      ∃ r ∈ rows, f r = Except.ok x := by
  intro rows
  induction rows with
  | nil => intro x hx; exact absurd hx (by simp [unmarshalLoop])
  | cons r rs ih =>
    intro x hx
    cases hf : f r with
    | error msg =>
      have hstep : unmarshalLoop f (r :: rs) = ([], some msg) := by
        simp [unmarshalLoop, hf]
      rw [hstep] at hx
      exact absurd hx (by simp)
    | ok y =>
      have hstep : unmarshalLoop f (r :: rs) =
          (y :: (unmarshalLoop f rs).1, (unmarshalLoop f rs).2) := by
        simp [unmarshalLoop, hf]
      rw [hstep] at hx
      simp only [List.mem_cons] at hx
      rcases hx with hx | hx
      · exact ⟨r, List.mem_cons_self r rs, hx ▸ hf⟩
      · obtain ⟨r', hr', hfr'⟩ := ih x hx
        exact ⟨r', List.mem_cons_of_mem r hr', hfr'⟩

theorem convertAll_length :
    ∀ (l : List (GoType × JValue)) (ws : List JValue),
    convertAll l = Except.ok ws → ws.length = l.length := by
  intro l
  induction l with
  | nil =>
    intro ws h
    simp only [convertAll, Except.ok.injEq] at h
    simp [← h]
  | cons tv rest ih =>
    intro ws h
    obtain ⟨t, v⟩ := tv
    simp only [convertAll] at h
    cases hc : coerce v t with
    | error msg => rw [hc] at h; exact absurd h (by simp)
    | ok w =>
      rw [hc] at h
      cases hr : convertAll rest with
      | error msg => rw [hr] at h; exact absurd h (by simp)
      | ok ws' =>
        rw [hr] at h
        simp only [Except.ok.injEq] at h
        rw [← h]
        simp [ih ws' hr]

theorem scan_ok_length (slots : List GoType) (row : List JValue) (vals : List JValue)
    (h : scan slots row = Except.ok vals) : vals.length = slots.length := by
  unfold scan at h
  by_cases hl : slots.length = row.length
  · rw [if_neg (by omega)] at h
    have := convertAll_length (slots.zip row) vals h
    rw [this, List.length_zip]
    omega
  · rw [if_pos (by omega)] at h
    exact absurd h (by simp)

theorem mapPut_keys (k : String) (v : JValue) :
    ∀ m : List (String × JValue),
    (mapPut m k v).map Prod.fst =
      if k ∈ m.map Prod.fst then m.map Prod.fst else m.map Prod.fst ++ [k] := by
  intro m
  induction m with
  | nil => simp [mapPut]
  | cons kv rest ih =>
    obtain ⟨k0, v0⟩ := kv
    by_cases h : k0 = k
    · subst h
      simp [mapPut]
    · simp only [mapPut, if_neg h, List.map_cons, ih]
      by_cases hm : k ∈ rest.map Prod.fst
      · simp [hm, Ne.symm h]
      · simp [hm, Ne.symm h]

theorem foldl_mapPut_keys :
    ∀ (pairs : List (String × JValue)) (m0 : List (String × JValue)),
    ((pairs.foldl (fun m kv => mapPut m kv.1 kv.2) m0).map Prod.fst) =
      (pairs.map Prod.fst).foldl (fun ks c => if c ∈ ks then ks else ks ++ [c]) (m0.map Prod.fst) := by
  intro pairs
  induction pairs with
  | nil => intro m0; rfl
  | cons kv rest ih =>
    intro m0
    simp only [List.foldl_cons, List.map_cons, ih, mapPut_keys]

theorem buildRowMap_keys (cols : List String) (vals : List JValue)
    (h : cols.length ≤ vals.length) :
    (buildRowMap cols vals).map Prod.fst = dedupCols cols := by
  unfold buildRowMap dedupCols
  rw [foldl_mapPut_keys, List.map_fst_zip cols vals h]
  rfl

theorem rowMap_ok_keys (vt : GoType) (cols : List String) (row : List JValue)
    (m : List (String × JValue)) (h : rowMap vt cols row = Except.ok m) :
    m.map Prod.fst = dedupCols cols := by
  unfold rowMap at h
  cases hs : scan (cols.map fun _ => vt) row with
  | error msg => rw [hs] at h; exact absurd h (by simp)
  | ok vals =>
    rw [hs] at h
    simp only [Except.ok.injEq] at h
    have hlen := scan_ok_length _ _ _ hs
    rw [List.length_map] at hlen
    rw [← h]
    exact buildRowMap_keys cols vals (by omega)

/-- C9: materialization is not atomic on error — for any row
materializer, when the rows before row k succeed and row k fails to scan
or convert, the loop returns the error and the output holds exactly the
materialized prefix; correspondingly, `Query` into a dynamic target
returns the wrapped error while the caller's slice has been mutated to
the prefix. -/
theorem c9_materialization_not_atomic :
    (∀ (α : Type) (f : List JValue → Except String α) (rows1 rows2 : List (List JValue))
      (bad : List JValue) (out : List α) (e : String),
      unmarshalLoop f rows1 = (out, none) → f bad = Except.error e →
      unmarshalLoop f (rows1 ++ bad :: rows2) = (out, some e)) ∧
    (∀ (qs : String) (cols : List String) (rows1 rows2 : List (List JValue))
      (bad : List JValue) (out : List (List (String × JValue))) (e : String),
      unmarshalLoop (rowMap GoType.tInterface cols) rows1 = (out, none) →
      rowMap GoType.tInterface cols bad = Except.error e →
      Query qs (Except.ok (cols, rows1 ++ bad :: rows2))
          (some (GoType.tPtr (GoType.tSlice GoType.tInterface))) =
        ⟨true, some (MatOut.maps out), some (qs ++ ": " ++ e)⟩) := by
  have hmain : ∀ (α : Type) (f : List JValue → Except String α)
      (rows1 rows2 : List (List JValue)) (bad : List JValue) (out : List α) (e : String),
      unmarshalLoop f rows1 = (out, none) → f bad = Except.error e →
      unmarshalLoop f (rows1 ++ bad :: rows2) = (out, some e) := by
    intro α f rows1 rows2 bad out e h1 hbad
    rw [unmarshalLoop_append_ok f (bad :: rows2) rows1 out h1]
    simp [unmarshalLoop, hbad]
  refine ⟨hmain, ?_⟩
  intro qs cols rows1 rows2 bad out e h1 hbad
  have h2 := hmain _ (rowMap GoType.tInterface cols) rows1 rows2 bad out e h1 hbad
  simp [Query, queryImpl, unmarshal, h2]

/-- C9 witness: a three-row query whose second row holds a brace-shaped
string that is not valid JSON; the first row is already in the output
slice, the error is returned, the third row is never materialized. -/
theorem c9_materialization_not_atomic_witness :
    unmarshalLoop (rowMap GoType.tInterface ["x"]) [[JValue.str "a"]] =
      ([[("x", JValue.str "a")]], none) ∧
    rowMap GoType.tInterface ["x"] [JValue.str "\x7bx\x7d"] =
      Except.error ("json unmarshal: invalid character in " ++ "\x7bx\x7d") ∧
    Query "q" (Except.ok (["x"], [[JValue.str "a"]] ++ [JValue.str "\x7bx\x7d"] :: [[JValue.str "b"]]))
        (some (GoType.tPtr (GoType.tSlice GoType.tInterface))) =
      ⟨true, some (MatOut.maps [[("x", JValue.str "a")]]),
        some ("q" ++ ": " ++ ("json unmarshal: invalid character in " ++ "\x7bx\x7d"))⟩ :=
  ⟨rfl, rfl,
    c9_materialization_not_atomic.2 "q" ["x"] [[JValue.str "a"]] [[JValue.str "b"]]
      [JValue.str "\x7bx\x7d"] [[("x", JValue.str "a")]]
      ("json unmarshal: invalid character in " ++ "\x7bx\x7d") rfl rfl⟩

/-- C10: a slice whose element type is the dynamic interface type always
materializes rows in mapping shape — every produced element is a map
keyed by the column names — and a single-column query still yields a
singleton map per row, never a bare scalar. -/
theorem c10_interface_materializes_maps (cols : List String) (rows : List (List JValue)) :
    (∃ xs errOpt, unmarshal GoType.tInterface cols rows = (MatOut.maps xs, errOpt) ∧
      ∀ m ∈ xs, m.map Prod.fst = dedupCols cols) ∧
    (∀ (c : String) (v w : JValue), coerce v GoType.tInterface = Except.ok w →
      unmarshal GoType.tInterface [c] [[v]] = (MatOut.maps [[(c, w)]], none)) := by
  constructor
  · refine ⟨(unmarshalLoop (rowMap GoType.tInterface cols) rows).1,
      (unmarshalLoop (rowMap GoType.tInterface cols) rows).2, rfl, ?_⟩
    intro m hm
    obtain ⟨r, _, hfr⟩ := unmarshalLoop_mem _ rows m hm
    exact rowMap_ok_keys _ _ _ _ hfr
  · intro c v w hw
    simp [unmarshal, unmarshalLoop, rowMap, scan, convertAll, hw, buildRowMap, mapPut]

/-- C10 witness: a one-column row materializes as the singleton map, not
as the bare scalar. -/
theorem c10_interface_materializes_maps_witness :
    coerce (JValue.num 7) GoType.tInterface = Except.ok (JValue.num 7) ∧
    unmarshal GoType.tInterface ["x"] [[JValue.num 7]] =
      (MatOut.maps [[("x", JValue.num 7)]], none) :=
  ⟨rfl, (c10_interface_materializes_maps ["x"] [[JValue.num 7]]).2 "x" (JValue.num 7)
    (JValue.num 7) rfl⟩

end Gosql
